import Mathlib

/-!
Shallow embedding of the chat-app socket server (src/unnamed/part_000).

The server keeps two insertion-ordered maps (`rooms : Map<string, Set<string>>`
mapping room names to member socket ids, and `roomMessages : Map<string, Message[]>`
mapping room names to message logs), a set of connected sockets, and a
file-system store (`storage/rooms.json` plus one `storage/messages/<name>.json`
per room).  JavaScript `Map` preserves insertion order and `Map.set` updates in
place or appends; we embed maps as association lists with `setAssoc`.  A
JavaScript `Set` is embedded as a duplicate-free list with `setAdd` (append if
absent, matching insertion order) and `setDelete`.  `JSON.stringify`/`JSON.parse`
round-trip is the identity on the data stored here, so files hold parsed values.

Event delivery: `socket.emit(e)` delivers to one session; `io.emit(e)` delivers
to every connected session; `io.to(room).emit(e)` delivers to every session in
the socket.io room.  The code joins a socket to the socket.io room exactly when
it adds its id to the `rooms` map entry, and socket.io removes a disconnecting
socket from its rooms before the `disconnect` handler runs, while the handler
deletes its id from the map entries; so socket.io room membership coincides
with the map entry at every emission point and we compute `io.to(room)`
recipients from the `rooms` map.  A handler's output is the list of
(recipient session id, event) deliveries in emission order.
-/

/-- One chat message as built by the `sendMessage` handler:
`{ user: username, text: message, time: new Date().toLocaleTimeString() }`. -/
structure Message where
  user : String
  text : String
  time : String
deriving Repr, DecidableEq

/-- The socket events the server emits, with their payloads. -/
inductive ServerEvent where
  | roomList (names : List String)
  | roomCreated (name : String)
  | roomJoined (name : String)
  | previousMessages (msgs : List Message)
  | userJoined (sid : String)
  | message (m : Message)
  | userLeft (sid : String)
  | errorEvt (msg : String)
deriving Repr, DecidableEq

/-- The file-system store: `rooms.json` (absent until first save) and the
per-room `messages/<name>.json` files (presence of a key = existence of the file). -/
structure Storage where
  roomsFile : Option (List String)
  messageFiles : List (String × List Message)
deriving Repr, DecidableEq

/-- The server's in-memory state plus its store. -/
structure ServerState where
  connected : List String
  rooms : List (String × List String)
  roomMessages : List (String × List Message)
  storage : Storage
deriving Repr, DecidableEq

/-- `Map.get`: value of the first (unique) binding of `k`. -/
def lookup {α : Type} (k : String) : List (String × α) → Option α
  | [] => none
  | (k', v) :: rest => if k' = k then some v else lookup k rest

/-- `Map.set`: replace the binding of `k` in place, or append a new one. -/
def setAssoc {α : Type} (k : String) (v : α) : List (String × α) → List (String × α)
  | [] => [(k, v)]
  | (k', v') :: rest => if k' = k then (k, v) :: rest else (k', v') :: setAssoc k v rest

/-- `Set.add`: append if absent (JavaScript sets keep insertion order). -/
def setAdd (x : String) (l : List String) : List String :=
  if x ∈ l then l else l ++ [x]

/-- `Set.delete`: remove the element. -/
def setDelete (x : String) : List String → List String
  | [] => []
  | y :: rest => if y = x then setDelete x rest else y :: setDelete x rest

/-- Names of the registered rooms, in insertion order (`Array.from(rooms.keys())`). -/
def roomNames (rooms : List (String × List String)) : List String :=
  rooms.map Prod.fst

/-- A delivery: recipient session id paired with the event it receives. -/
abbrev Delivery := String × ServerEvent

/-- The `connection` handler body that runs unconditionally: record the socket
and send it the current room list (`socket.emit('roomList', ...)`). -/
def handleConnection (sid : String) (st : ServerState) :
    ServerState × List Delivery :=
  ({ st with connected := setAdd sid st.connected },
   [(sid, ServerEvent.roomList (roomNames st.rooms))])

/-- The `createRoom` handler.  A fresh name gets an empty message log and a
membership holding just the creator (`rooms.set(name, new Set())` followed by
`rooms.get(name).add(socket.id)`); the creator gets `roomCreated`, everyone
gets the new `roomList`, and `saveRooms()` persists the key list.  A taken
name gets only an `error` back to the caller. -/
def handleCreateRoom (sid name : String) (st : ServerState) :
    ServerState × List Delivery :=
  if (lookup name st.rooms).isSome then
    (st, [(sid, ServerEvent.errorEvt "Room already exists")])
  else
    let rooms' := setAssoc name (setAdd sid []) st.rooms
    let st' := { st with
      rooms := rooms'
      roomMessages := setAssoc name [] st.roomMessages
      storage := { st.storage with roomsFile := some (roomNames rooms') } }
    (st', (sid, ServerEvent.roomCreated name)
            :: st.connected.map (fun s => (s, ServerEvent.roomList (roomNames rooms'))))

/-- The `joinRoom` handler.  An existing room gains the joiner in its
membership; the joiner gets `roomJoined` and the full log
(`previousMessages`), and `io.to(roomName)` — the membership after the
`socket.join` — gets `userJoined` with the joiner's id.  An absent room gets
only an `error` back to the caller. -/
def handleJoinRoom (sid name : String) (st : ServerState) :
    ServerState × List Delivery :=
  match lookup name st.rooms with
  | some members =>
    let members' := setAdd sid members
    let st' := { st with rooms := setAssoc name members' st.rooms }
    (st', (sid, ServerEvent.roomJoined name)
            :: (sid, ServerEvent.previousMessages ((lookup name st.roomMessages).getD []))
            :: members'.map (fun s => (s, ServerEvent.userJoined sid)))
  | none => (st, [(sid, ServerEvent.errorEvt "Room does not exist")])

/-- The `sendMessage` handler.  A falsy `room`, `message` or `username`
(absent fields destructure to `undefined`; we embed both absent and empty as
`""`) drops the request with no state change and no event.  Otherwise the
message (timestamped with `new Date().toLocaleTimeString()`, passed in as
`now`) is appended to the room's log (`roomMessages.get(room) || []`),
`saveMessages(room)` writes the log to the room's file, and every session in
the room receives the `message` event. -/
def handleSendMessage (room message username now : String) (st : ServerState) :
    ServerState × List Delivery :=
  if room = "" ∨ message = "" ∨ username = "" then (st, [])
  else
    let m : Message := ⟨username, message, now⟩
    let msgs := (lookup room st.roomMessages).getD [] ++ [m]
    let st' := { st with
      roomMessages := setAssoc room msgs st.roomMessages
      storage := { st.storage with
        messageFiles := setAssoc room msgs st.storage.messageFiles } }
    (st', ((lookup room st.rooms).getD []).map (fun s => (s, ServerEvent.message m)))

/-- The `disconnect` handler.  For each room holding the socket its id is
deleted; `userLeft` is emitted only inside the `users.size === 0` branch, to a
room whose remaining membership is empty, so it reaches no session.  The
refreshed room-name list then goes to every still-connected session
(socket.io no longer counts the disconnected socket). -/
def handleDisconnect (sid : String) (st : ServerState) :
    ServerState × List Delivery :=
  let rooms' := st.rooms.map
    (fun p => (p.1, if sid ∈ p.2 then setDelete sid p.2 else p.2))
  let leftEvents : List Delivery := st.rooms.foldr
    (fun p acc =>
      if sid ∈ p.2 then
        let remaining := setDelete sid p.2
        (if remaining = [] then
          remaining.map (fun s => (s, ServerEvent.userLeft sid)) else []) ++ acc
      else acc) []
  let connected' := setDelete sid st.connected
  let st' := { st with connected := connected', rooms := rooms' }
  (st', leftEvents ++ connected'.map (fun s => (s, ServerEvent.roomList (roomNames rooms'))))

/-- `saveRooms`: write the current room-name list to `rooms.json`. -/
def saveRooms (rooms : List (String × List String)) (sto : Storage) : Storage :=
  { sto with roomsFile := some (roomNames rooms) }

/-- `saveMessages(roomName)`: write `roomMessages.get(roomName) || []` to the
room's message file. -/
def saveMessages (roomMessages : List (String × List Message)) (name : String)
    (sto : Storage) : Storage :=
  { sto with messageFiles :=
      setAssoc name ((lookup name roomMessages).getD []) sto.messageFiles }

/-- Save the room-name list and then each registered room's message log. -/
def saveAll (st : ServerState) : Storage :=
  (roomNames st.rooms).foldl (fun sto n => saveMessages st.roomMessages n sto)
    (saveRooms st.rooms st.storage)

/-- `loadSavedData`: if `rooms.json` exists, register each listed name with an
empty membership and with the contents of its message file, or an empty log
when that file is missing.  Without `rooms.json` nothing is loaded. -/
def loadSavedData (sto : Storage) :
    List (String × List String) × List (String × List Message) :=
  match sto.roomsFile with
  | none => ([], [])
  | some names =>
    names.foldl
      (fun acc n =>
        (setAssoc n [] acc.1,
         setAssoc n ((lookup n sto.messageFiles).getD []) acc.2))
      ([], [])

/-- One client-visible operation, tagged with the acting session id. -/
inductive Op where
  | connect (sid : String)
  | createRoom (sid name : String)
  | joinRoom (sid name : String)
  | sendMessage (sid room message username now : String)
  | disconnect (sid : String)
deriving Repr, DecidableEq

/-- Dispatch one operation to its handler. -/
def step (op : Op) (st : ServerState) : ServerState × List Delivery :=
  match op with
  | Op.connect sid => handleConnection sid st
  | Op.createRoom sid name => handleCreateRoom sid name st
  | Op.joinRoom sid name => handleJoinRoom sid name st
  | Op.sendMessage _ room message username now =>
      handleSendMessage room message username now st
  | Op.disconnect sid => handleDisconnect sid st

/-- Run a list of operations, discarding deliveries. -/
def run (ops : List Op) (st : ServerState) : ServerState :=
  ops.foldl (fun s op => (step op s).1) st

/-- Recognize a `userJoined` event. -/
def ServerEvent.isUserJoined : ServerEvent → Bool
  | ServerEvent.userJoined _ => true
  | _ => false

/-- Recognize a `userLeft` event. -/
def ServerEvent.isUserLeft : ServerEvent → Bool
  | ServerEvent.userLeft _ => true
  | _ => false

/-- Does this operation let session `sid` enter a room (as creator or joiner)? -/
def joinsAs (sid : String) : Op → Bool
  | Op.createRoom s _ => s = sid
  | Op.joinRoom s _ => s = sid
  | _ => false

/-- An empty store: no `rooms.json`, no message files. -/
def emptyStorage : Storage := { roomsFile := none, messageFiles := [] }

/-- A fresh server with no rooms and no connections. -/
def emptyState : ServerState :=
  { connected := [], rooms := [], roomMessages := [], storage := emptyStorage }

/-- Sessions `a` and `b` connected, both members of room `r` with an empty log. -/
def twoInRoom : ServerState :=
  { connected := ["a", "b"], rooms := [("r", ["a", "b"])],
    roomMessages := [("r", [])], storage := emptyStorage }

/-- Sessions `a` and `b` connected, only `a` a member of room `r`. -/
def oneInRoom : ServerState :=
  { connected := ["a", "b"], rooms := [("r", ["a"])],
    roomMessages := [("r", [])], storage := emptyStorage }

/-! ### Association-list and set lemmas -/

theorem lookup_setAssoc_self {α : Type} (k : String) (v : α)
    (l : List (String × α)) : lookup k (setAssoc k v l) = some v := by
  induction l with
  | nil => simp [setAssoc, lookup]
  | cons p rest ih =>
    by_cases h : p.1 = k
    · simp [setAssoc, h, lookup]
    · simp [setAssoc, h, lookup, ih]

theorem lookup_setAssoc_ne {α : Type} {k k' : String} (v : α)
    (l : List (String × α)) (h : k' ≠ k) :
    lookup k' (setAssoc k v l) = lookup k' l := by
  have h' : ¬k = k' := fun hc => h hc.symm
  induction l with
  | nil => simp [setAssoc, lookup, h']
  | cons p rest ih =>
    by_cases hp : p.1 = k
    · subst hp
      simp [setAssoc, lookup, h']
    · simp [setAssoc, hp, lookup, ih]

theorem lookup_eq_none_iff {α : Type} (k : String) (l : List (String × α)) :
    lookup k l = none ↔ k ∉ l.map Prod.fst := by
  induction l with
  | nil => simp [lookup]
  | cons p rest ih =>
    by_cases h : p.1 = k
    · simp [lookup, h]
    · have h' : ¬k = p.1 := fun hc => h hc.symm
      simp [lookup, h, ih, h']

theorem setAssoc_of_not_mem {α : Type} {k : String} (v : α)
    {l : List (String × α)} (h : k ∉ l.map Prod.fst) :
    setAssoc k v l = l ++ [(k, v)] := by
  induction l with
  | nil => simp [setAssoc]
  | cons p rest ih =>
    simp only [List.map_cons, List.mem_cons] at h
    push_neg at h
    have h' : ¬p.1 = k := fun hc => h.1 hc.symm
    simp [setAssoc, h', ih h.2]

theorem keys_setAssoc {α : Type} (k : String) (v : α)
    (l : List (String × α)) :
    (setAssoc k v l).map Prod.fst
      = if k ∈ l.map Prod.fst then l.map Prod.fst else l.map Prod.fst ++ [k] := by
  induction l with
  | nil => simp [setAssoc]
  | cons p rest ih =>
    by_cases h : p.1 = k
    · simp [setAssoc, h]
    · have h' : ¬k = p.1 := fun hc => h hc.symm
      simp only [setAssoc, if_neg h, List.map_cons, ih, List.mem_cons]
      by_cases hk : k ∈ rest.map Prod.fst
      · simp [hk]
      · simp [hk, h']

theorem mem_keys_setAssoc {α : Type} {x k : String} (v : α)
    {l : List (String × α)} (h : x ∈ l.map Prod.fst) :
    x ∈ (setAssoc k v l).map Prod.fst := by
  rw [keys_setAssoc]
  by_cases hk : k ∈ l.map Prod.fst <;> simp [hk, h]

theorem lookup_setAssoc_cases {α : Type} {n k : String} {v : α}
    {l : List (String × α)} {ms : α}
    (h : lookup n (setAssoc k v l) = some ms) :
    (n = k ∧ ms = v) ∨ lookup n l = some ms := by
  by_cases hk : n = k
  · subst hk
    rw [lookup_setAssoc_self] at h
    exact Or.inl ⟨rfl, (Option.some_injective _ h).symm⟩
  · rw [lookup_setAssoc_ne _ _ hk] at h
    exact Or.inr h

theorem mem_setAdd_self (x : String) (l : List String) : x ∈ setAdd x l := by
  unfold setAdd
  by_cases h : x ∈ l <;> simp [h]

theorem not_mem_setAdd {x y : String} {l : List String}
    (hl : x ∉ l) (hxy : x ≠ y) : x ∉ setAdd y l := by
  unfold setAdd
  by_cases h : y ∈ l <;> simp [h, hl, hxy]

theorem not_mem_setDelete_self (x : String) (l : List String) :
    x ∉ setDelete x l := by
  induction l with
  | nil => simp [setDelete]
  | cons y rest ih =>
    by_cases h : y = x
    · simpa [setDelete, h] using ih
    · have h' : ¬x = y := fun hc => h hc.symm
      simp [setDelete, h, ih, h']

theorem mem_of_mem_setDelete {x y : String} {l : List String}
    (h : y ∈ setDelete x l) : y ∈ l := by
  induction l with
  | nil => simp [setDelete] at h
  | cons z rest ih =>
    by_cases hz : z = x
    · simp only [setDelete, if_pos hz] at h
      exact List.mem_cons_of_mem _ (ih h)
    · simp only [setDelete, if_neg hz, List.mem_cons] at h
      rcases h with h | h
      · exact h ▸ List.mem_cons_self _ _
      · exact List.mem_cons_of_mem _ (ih h)

theorem lookup_foldl_setAssoc {α : Type} (f : String → α) (names : List String)
    (acc : List (String × α)) (k : String) :
    lookup k (names.foldl (fun a n => setAssoc n (f n) a) acc)
      = if k ∈ names then some (f k) else lookup k acc := by
  induction names generalizing acc with
  | nil => simp
  | cons n rest ih =>
    rw [List.foldl_cons, ih]
    by_cases hk : k ∈ rest
    · simp [hk]
    · by_cases hn : k = n
      · subst hn
        simp [hk, lookup_setAssoc_self]
      · simp [hk, hn, lookup_setAssoc_ne _ _ hn]

theorem foldl_setAssoc_fresh {α : Type} (f : String → α) (names : List String)
    (acc : List (String × α)) (hd : names.Nodup)
    (hfresh : ∀ n ∈ names, n ∉ acc.map Prod.fst) :
    names.foldl (fun a n => setAssoc n (f n) a) acc
      = acc ++ names.map (fun n => (n, f n)) := by
  induction names generalizing acc with
  | nil => simp
  | cons n rest ih =>
    have hn : n ∉ acc.map Prod.fst := hfresh n (List.mem_cons_self _ _)
    have hd' := List.nodup_cons.mp hd
    have hfresh' : ∀ m ∈ rest, m ∉ (acc ++ [(n, f n)]).map Prod.fst := by
      intro m hm
      have h1 : m ∉ acc.map Prod.fst := hfresh m (List.mem_cons_of_mem _ hm)
      have h2 : ¬m = n := fun hc => hd'.1 (hc ▸ hm)
      simp [h1, h2]
    rw [List.foldl_cons, setAssoc_of_not_mem _ hn,
        ih (acc ++ [(n, f n)]) hd'.2 hfresh']
    simp

theorem foldl_pair_split {α β : Type} (g1 : α → String → α) (g2 : β → String → β)
    (names : List String) (a : α) (b : β) :
    names.foldl (fun acc n => (g1 acc.1 n, g2 acc.2 n)) (a, b)
      = (names.foldl g1 a, names.foldl g2 b) := by
  induction names generalizing a b with
  | nil => rfl
  | cons n rest ih => simp [List.foldl_cons, ih]

theorem foldl_saveMessages_messageFiles (rm : List (String × List Message))
    (names : List String) (sto : Storage) :
    (names.foldl (fun s n => saveMessages rm n s) sto).messageFiles
      = names.foldl (fun a n => setAssoc n ((lookup n rm).getD []) a)
          sto.messageFiles := by
  induction names generalizing sto with
  | nil => rfl
  | cons n rest ih =>
    simp only [List.foldl_cons]
    rw [ih]
    rfl

theorem foldl_saveMessages_roomsFile (rm : List (String × List Message))
    (names : List String) (sto : Storage) :
    (names.foldl (fun s n => saveMessages rm n s) sto).roomsFile
      = sto.roomsFile := by
  induction names generalizing sto with
  | nil => rfl
  | cons n rest ih =>
    simp only [List.foldl_cons]
    rw [ih]
    rfl

theorem saveAll_roomsFile (st : ServerState) :
    (saveAll st).roomsFile = some (roomNames st.rooms) := by
  unfold saveAll
  rw [foldl_saveMessages_roomsFile]
  rfl

theorem saveAll_messageFiles (st : ServerState) :
    (saveAll st).messageFiles
      = (roomNames st.rooms).foldl
          (fun a n => setAssoc n ((lookup n st.roomMessages).getD []) a)
          st.storage.messageFiles := by
  unfold saveAll
  rw [foldl_saveMessages_messageFiles]
  rfl

theorem loadSavedData_of_roomsFile (sto : Storage) (names : List String)
    (h : sto.roomsFile = some names) :
    loadSavedData sto
      = (names.foldl (fun a n => setAssoc n [] a) [],
         names.foldl
           (fun a n => setAssoc n ((lookup n sto.messageFiles).getD []) a) []) := by
  unfold loadSavedData
  rw [h]
  exact foldl_pair_split (fun a n => setAssoc n [] a)
    (fun b n => setAssoc n ((lookup n sto.messageFiles).getD []) b) names [] []

theorem lookup_map_snd {α β : Type} (f : String → α → β)
    (l : List (String × α)) (k : String) :
    lookup k (l.map (fun p => (p.1, f p.1 p.2))) = (lookup k l).map (f k) := by
  induction l with
  | nil => simp [lookup]
  | cons p rest ih =>
    by_cases h : p.1 = k
    · subst h
      simp [lookup, ih]
    · simp [lookup, h, ih]

/-- Number of times a given delivery occurs in a handler's output. -/
def countDeliveries (d : Delivery) : List Delivery → Nat
  | [] => 0
  | p :: rest => (if p = d then 1 else 0) + countDeliveries d rest

theorem countDeliveries_map_of_not_mem {s : String} {l : List String}
    (ev : ServerEvent) (h : s ∉ l) :
    countDeliveries (s, ev) (l.map (fun x => (x, ev))) = 0 := by
  induction l with
  | nil => rfl
  | cons y rest ih =>
    simp only [List.mem_cons] at h
    push_neg at h
    have hy : ¬((y, ev) : Delivery) = (s, ev) := by
      intro hc
      exact h.1 (congrArg Prod.fst hc).symm
    simp [countDeliveries, hy, ih h.2]

theorem countDeliveries_map_of_nodup {s : String} {l : List String}
    (ev : ServerEvent) (hd : l.Nodup) (hs : s ∈ l) :
    countDeliveries (s, ev) (l.map (fun x => (x, ev))) = 1 := by
  induction l with
  | nil => exact absurd hs (List.not_mem_nil s)
  | cons y rest ih =>
    have hd' := List.nodup_cons.mp hd
    rcases List.mem_cons.mp hs with hsy | hsr
    · subst hsy
      simp [countDeliveries, countDeliveries_map_of_not_mem ev hd'.1]
    · have hy : ¬((y, ev) : Delivery) = (s, ev) := by
        intro hc
        exact hd'.1 (by rw [show y = s from congrArg Prod.fst hc]; exact hsr)
      simp [countDeliveries, hy, ih hd'.2 hsr]

/-! ### Claim theorems -/

/-- C1: `createRoom` on a name not in the registry registers the room with an
empty message log (the creator becomes its sole member), persists the updated
room-name list — the old names with the new one appended — and tells the
creator `roomCreated`; on a name already registered it leaves the whole state
(room map, message logs, store) unchanged and sends an already-exists `error`
to the caller only. -/
theorem createRoom_spec (st : ServerState) (sid name : String) :
    (name ∉ roomNames st.rooms →
      lookup name (handleCreateRoom sid name st).1.rooms = some [sid] ∧
      lookup name (handleCreateRoom sid name st).1.roomMessages = some [] ∧
      (handleCreateRoom sid name st).1.storage.roomsFile
        = some (roomNames st.rooms ++ [name]) ∧
      roomNames (handleCreateRoom sid name st).1.rooms
        = roomNames st.rooms ++ [name] ∧
      (sid, ServerEvent.roomCreated name) ∈ (handleCreateRoom sid name st).2) ∧
    (name ∈ roomNames st.rooms →
      (handleCreateRoom sid name st).1 = st ∧
      (handleCreateRoom sid name st).2
        = [(sid, ServerEvent.errorEvt "Room already exists")]) := by
  constructor
  · intro h
    have hnone : lookup name st.rooms = none := (lookup_eq_none_iff _ _).mpr h
    have hkeys : roomNames (setAssoc name (setAdd sid []) st.rooms)
        = roomNames st.rooms ++ [name] := by
      unfold roomNames at h ⊢
      rw [keys_setAssoc, if_neg h]
    simp only [handleCreateRoom, hnone, Option.isSome_none, Bool.false_eq_true,
      if_false]
    refine ⟨?_, ?_, ?_, ?_, ?_⟩
    · rw [lookup_setAssoc_self]
      simp [setAdd]
    · exact lookup_setAssoc_self _ _ _
    · rw [hkeys]
    · exact hkeys
    · exact List.mem_cons_self _ _
  · intro h
    have hsome : (lookup name st.rooms).isSome = true := by
      rcases Option.eq_none_or_eq_some (lookup name st.rooms) with hc | ⟨v, hv⟩
      · exact absurd ((lookup_eq_none_iff _ _).mp hc) (fun hn => hn h)
      · rw [hv]; rfl
    simp [handleCreateRoom, hsome]

theorem createRoom_spec_witness :
    (("a", ServerEvent.roomCreated "r") ∈ (handleCreateRoom "a" "r" emptyState).2 ∧
     lookup "r" (handleCreateRoom "a" "r" emptyState).1.roomMessages = some []) ∧
    (handleCreateRoom "b" "r" twoInRoom).2
      = [("b", ServerEvent.errorEvt "Room already exists")] :=
  ⟨⟨((createRoom_spec emptyState "a" "r").1 (by decide)).2.2.2.2,
    ((createRoom_spec emptyState "a" "r").1 (by decide)).2.1⟩,
   ((createRoom_spec twoInRoom "b" "r").2 (by decide)).2⟩

/-- C2: `joinRoom` on an absent room changes nothing and sends a not-found
`error` to the caller only; on an existing room it adds the session to the
room's membership and sends the joiner the room's entire message log, in
append order, as `previousMessages`. -/
theorem joinRoom_spec (st : ServerState) (sid name : String) :
    (lookup name st.rooms = none →
      (handleJoinRoom sid name st).1 = st ∧
      (handleJoinRoom sid name st).2
        = [(sid, ServerEvent.errorEvt "Room does not exist")]) ∧
    (∀ members, lookup name st.rooms = some members →
      lookup name (handleJoinRoom sid name st).1.rooms
        = some (setAdd sid members) ∧
      sid ∈ setAdd sid members ∧
      (sid, ServerEvent.previousMessages ((lookup name st.roomMessages).getD []))
        ∈ (handleJoinRoom sid name st).2) := by
  constructor
  · intro h
    simp [handleJoinRoom, h]
  · intro members h
    simp only [handleJoinRoom, h]
    exact ⟨lookup_setAssoc_self _ _ _, mem_setAdd_self _ _, by simp⟩

theorem joinRoom_spec_witness :
    ((handleJoinRoom "b" "nope" twoInRoom).1 = twoInRoom ∧
     (handleJoinRoom "b" "nope" twoInRoom).2
       = [("b", ServerEvent.errorEvt "Room does not exist")]) ∧
    ("b", ServerEvent.previousMessages []) ∈ (handleJoinRoom "b" "r" oneInRoom).2 :=
  ⟨(joinRoom_spec twoInRoom "b" "nope").1 (by decide),
   ((joinRoom_spec oneInRoom "b" "r").2 ["a"] (by decide)).2.2⟩

/-- C6: `sendMessage` with an empty (or absent, which destructures to a falsy
value) room, message or username is dropped silently: the state — logs and
store included — is untouched and no event at all is delivered to anyone. -/
theorem sendMessage_invalid_dropped (st : ServerState)
    (room message username now : String)
    (h : room = "" ∨ message = "" ∨ username = "") :
    handleSendMessage room message username now st = (st, []) := by
  unfold handleSendMessage
  rw [if_pos h]

theorem sendMessage_invalid_dropped_witness :
    handleSendMessage "" "hi" "alice" "t0" twoInRoom = (twoInRoom, []) :=
  sendMessage_invalid_dropped twoInRoom "" "hi" "alice" "t0" (Or.inl rfl)

/-- C7: saving the room-name list and each registered room's message log and
then reloading (`loadSavedData`) yields exactly the saved names in order, each
with an empty membership, and for each name exactly the saved log in order;
a listed name whose message file is missing loads with an empty log rather
than an error. -/
theorem persistence_roundtrip (st : ServerState)
    (h : (roomNames st.rooms).Nodup) :
    ((loadSavedData (saveAll st)).1
        = (roomNames st.rooms).map (fun n => (n, ([] : List String)))) ∧
    (∀ n ∈ roomNames st.rooms,
      lookup n (loadSavedData (saveAll st)).2
        = some ((lookup n st.roomMessages).getD [])) ∧
    (∀ (sto : Storage) (names : List String) (n : String),
      sto.roomsFile = some names → n ∈ names →
      lookup n sto.messageFiles = none →
      lookup n (loadSavedData sto).2 = some []) := by
  have hload := loadSavedData_of_roomsFile (saveAll st) (roomNames st.rooms)
    (saveAll_roomsFile st)
  refine ⟨?_, ?_, ?_⟩
  · rw [hload]
    rw [show ((roomNames st.rooms).foldl (fun a n => setAssoc n [] a) [],
          (roomNames st.rooms).foldl
            (fun a n => setAssoc n ((lookup n (saveAll st).messageFiles).getD []) a)
            []).1
        = (roomNames st.rooms).foldl
            (fun a n => setAssoc n ((fun _ => ([] : List String)) n) a) [] from rfl]
    rw [foldl_setAssoc_fresh (fun _ => ([] : List String)) _ [] h (by simp)]
    simp
  · intro n hn
    rw [hload]
    rw [show ((roomNames st.rooms).foldl (fun a n => setAssoc n [] a) [],
          (roomNames st.rooms).foldl
            (fun a n => setAssoc n ((lookup n (saveAll st).messageFiles).getD []) a)
            []).2
        = (roomNames st.rooms).foldl
            (fun a n => setAssoc n ((lookup n (saveAll st).messageFiles).getD []) a)
            [] from rfl]
    rw [lookup_foldl_setAssoc (fun m => (lookup m (saveAll st).messageFiles).getD [])
      _ _ n, if_pos hn, saveAll_messageFiles,
      lookup_foldl_setAssoc (fun m => (lookup m st.roomMessages).getD []) _ _ n,
      if_pos hn]
    rfl
  · intro sto names n hfile hn hmiss
    rw [loadSavedData_of_roomsFile sto names hfile]
    rw [show (names.foldl (fun a n => setAssoc n [] a) [],
          names.foldl
            (fun a n => setAssoc n ((lookup n sto.messageFiles).getD []) a) []).2
        = names.foldl
            (fun a n => setAssoc n ((lookup n sto.messageFiles).getD []) a) []
        from rfl]
    rw [lookup_foldl_setAssoc (fun m => (lookup m sto.messageFiles).getD []) _ _ n,
      if_pos hn, hmiss]
    rfl

theorem persistence_roundtrip_witness :
    (loadSavedData (saveAll twoInRoom)).1 = [("r", ([] : List String))] ∧
    lookup "r" (loadSavedData (saveAll twoInRoom)).2 = some [] ∧
    lookup "m" (loadSavedData ⟨some ["m"], []⟩).2 = some [] :=
  ⟨(persistence_roundtrip twoInRoom (by decide)).1,
   (persistence_roundtrip twoInRoom (by decide)).2.1 "r" (by decide),
   (persistence_roundtrip twoInRoom (by decide)).2.2 ⟨some ["m"], []⟩ ["m"] "m"
     rfl (by decide) rfl⟩

/-- C3: a valid `sendMessage` to an existing room with joined sessions
delivers to every session currently in the room — the sender included when it
is one of them — exactly one `message` event whose author and text are the
input username and message and whose timestamp is the non-empty clock string,
and it appends that same record to the room's in-memory log. -/
theorem sendMessage_valid_delivery (st : ServerState)
    (room message username now : String) (members : List String)
    (hroom : room ≠ "") (hmsg : message ≠ "") (huser : username ≠ "")
    (hmem : lookup room st.rooms = some members) (_hne : members ≠ [])
    (hnodup : members.Nodup) (hnow : now ≠ "") :
    (∀ s ∈ members,
      countDeliveries (s, ServerEvent.message ⟨username, message, now⟩)
        (handleSendMessage room message username now st).2 = 1) ∧
    lookup room (handleSendMessage room message username now st).1.roomMessages
      = some ((lookup room st.roomMessages).getD []
          ++ [⟨username, message, now⟩]) ∧
    (Message.mk username message now).time ≠ "" := by
  have hcond : ¬(room = "" ∨ message = "" ∨ username = "") := by
    push_neg
    exact ⟨hroom, hmsg, huser⟩
  refine ⟨?_, ?_, hnow⟩
  · intro s hs
    simp only [handleSendMessage, if_neg hcond, hmem, Option.getD_some]
    exact countDeliveries_map_of_nodup _ hnodup hs
  · simp only [handleSendMessage, if_neg hcond]
    exact lookup_setAssoc_self _ _ _

theorem sendMessage_valid_delivery_witness :
    countDeliveries ("a", ServerEvent.message ⟨"alice", "hi", "t0"⟩)
      (handleSendMessage "r" "hi" "alice" "t0" twoInRoom).2 = 1 ∧
    lookup "r" (handleSendMessage "r" "hi" "alice" "t0" twoInRoom).1.roomMessages
      = some [⟨"alice", "hi", "t0"⟩] :=
  ⟨(sendMessage_valid_delivery twoInRoom "r" "hi" "alice" "t0" ["a", "b"]
      (by decide) (by decide) (by decide) (by decide) (by decide) (by decide)
      (by decide)).1 "a" (by decide),
   (sendMessage_valid_delivery twoInRoom "r" "hi" "alice" "t0" ["a", "b"]
      (by decide) (by decide) (by decide) (by decide) (by decide) (by decide)
      (by decide)).2.1⟩

/-- C10: a well-formed `sendMessage` naming a room absent from the registry
(and with no log under that name yet) still creates a log holding just the
new message and persists it to that room's message file, while the room map
is untouched — so the name is absent from the room-name list every `roomList`
payload is built from — and no session receives the `message` event. -/
theorem sendMessage_ghost_room (st : ServerState)
    (room message username now : String)
    (hroom : room ≠ "") (hmsg : message ≠ "") (huser : username ≠ "")
    (habsent : lookup room st.rooms = none)
    (hnolog : lookup room st.roomMessages = none) :
    (handleSendMessage room message username now st).1.rooms = st.rooms ∧
    room ∉ roomNames (handleSendMessage room message username now st).1.rooms ∧
    lookup room (handleSendMessage room message username now st).1.roomMessages
      = some [⟨username, message, now⟩] ∧
    lookup room
        (handleSendMessage room message username now st).1.storage.messageFiles
      = some [⟨username, message, now⟩] ∧
    (handleSendMessage room message username now st).2 = [] := by
  have hcond : ¬(room = "" ∨ message = "" ∨ username = "") := by
    push_neg
    exact ⟨hroom, hmsg, huser⟩
  refine ⟨?_, ?_, ?_, ?_, ?_⟩
  · simp only [handleSendMessage, if_neg hcond]
  · simp only [handleSendMessage, if_neg hcond]
    exact (lookup_eq_none_iff _ _).mp habsent
  · simp only [handleSendMessage, if_neg hcond, hnolog, Option.getD_none,
      List.nil_append]
    exact lookup_setAssoc_self _ _ _
  · simp only [handleSendMessage, if_neg hcond, hnolog, Option.getD_none,
      List.nil_append]
    exact lookup_setAssoc_self _ _ _
  · simp only [handleSendMessage, if_neg hcond, habsent, Option.getD_none,
      List.map_nil]

theorem sendMessage_ghost_room_witness :
    lookup "ghost" (handleSendMessage "ghost" "hi" "alice" "t0" twoInRoom).1.roomMessages
      = some [⟨"alice", "hi", "t0"⟩] ∧
    "ghost" ∉ roomNames (handleSendMessage "ghost" "hi" "alice" "t0" twoInRoom).1.rooms ∧
    (handleSendMessage "ghost" "hi" "alice" "t0" twoInRoom).2 = [] :=
  ⟨(sendMessage_ghost_room twoInRoom "ghost" "hi" "alice" "t0" (by decide)
      (by decide) (by decide) (by decide) (by decide)).2.2.1,
   (sendMessage_ghost_room twoInRoom "ghost" "hi" "alice" "t0" (by decide)
      (by decide) (by decide) (by decide) (by decide)).2.1,
   (sendMessage_ghost_room twoInRoom "ghost" "hi" "alice" "t0" (by decide)
      (by decide) (by decide) (by decide) (by decide)).2.2.2.2⟩

theorem roomNames_map_snd (f : String × List String → List String)
    (l : List (String × List String)) :
    roomNames (l.map (fun p => (p.1, f p))) = roomNames l := by
  unfold roomNames
  rw [List.map_map]
  rfl

theorem roomNames_subset_step (op : Op) (st : ServerState) (n : String)
    (hn : n ∈ roomNames st.rooms) : n ∈ roomNames (step op st).1.rooms := by
  cases op with
  | connect sid => exact hn
  | createRoom sid name =>
    by_cases h : (lookup name st.rooms).isSome = true
    · simpa [step, handleCreateRoom, h] using hn
    · simp only [step, handleCreateRoom, h, if_false]
      exact mem_keys_setAssoc _ hn
  | joinRoom sid name =>
    cases hm : lookup name st.rooms with
    | none => simpa [step, handleJoinRoom, hm] using hn
    | some members =>
      simp only [step, handleJoinRoom, hm]
      exact mem_keys_setAssoc _ hn
  | sendMessage sid room message username now =>
    by_cases h : room = "" ∨ message = "" ∨ username = ""
    · simpa [step, handleSendMessage, h] using hn
    · simpa [step, handleSendMessage, h] using hn
  | disconnect sid =>
    simp only [step, handleDisconnect]
    rw [roomNames_map_snd (fun p => if sid ∈ p.2 then setDelete sid p.2 else p.2)]
    exact hn

/-- C8: a registered room name survives every subsequent operation — connect,
create, join, send, disconnect — so the room-name list never loses a name
over any run of the server; in particular a room whose membership drops to
zero is not removed. -/
theorem roomNames_monotone (st : ServerState) (ops : List Op) (n : String)
    (h : n ∈ roomNames st.rooms) : n ∈ roomNames (run ops st).rooms := by
  induction ops generalizing st with
  | nil => exact h
  | cons op rest ih => exact ih (step op st).1 (roomNames_subset_step op st n h)

theorem roomNames_monotone_witness :
    "r" ∈ roomNames (run [Op.disconnect "a", Op.disconnect "b"] twoInRoom).rooms :=
  roomNames_monotone twoInRoom [Op.disconnect "a", Op.disconnect "b"] "r"
    (by decide)

/-- Session `sid` appears in no room's membership. -/
def memberNowhere (sid : String) (st : ServerState) : Prop :=
  ∀ name ms, lookup name st.rooms = some ms → sid ∉ ms

theorem memberNowhere_after_disconnect (sid : String) (st : ServerState) :
    memberNowhere sid (handleDisconnect sid st).1 := by
  intro nm ms hms
  simp only [handleDisconnect] at hms
  rw [lookup_map_snd (fun _ v => if sid ∈ v then setDelete sid v else v)
    st.rooms nm] at hms
  cases hl : lookup nm st.rooms with
  | none =>
    rw [hl] at hms
    cases hms
  | some ms0 =>
    rw [hl] at hms
    have hval : (if sid ∈ ms0 then setDelete sid ms0 else ms0) = ms :=
      Option.some_injective _ hms
    by_cases hin : sid ∈ ms0
    · rw [if_pos hin] at hval
      rw [← hval]
      exact not_mem_setDelete_self sid ms0
    · rw [if_neg hin] at hval
      rw [← hval]
      exact hin

theorem memberNowhere_step (sid : String) (op : Op) (st : ServerState)
    (hop : joinsAs sid op = false) (h : memberNowhere sid st) :
    memberNowhere sid (step op st).1 := by
  cases op with
  | connect s => exact h
  | createRoom s name =>
    have hs : ¬s = sid := by simpa [joinsAs] using hop
    intro nm ms hms
    by_cases hc : (lookup name st.rooms).isSome = true
    · simp only [step, handleCreateRoom, hc, if_true] at hms
      exact h nm ms hms
    · simp only [step, handleCreateRoom, hc, if_false] at hms
      rcases lookup_setAssoc_cases hms with ⟨_, hmsv⟩ | hold
      · subst hmsv
        intro hmem
        simp [setAdd] at hmem
        exact hs hmem.symm
      · exact h nm ms hold
  | joinRoom s name =>
    have hs : ¬s = sid := by simpa [joinsAs] using hop
    intro nm ms hms
    cases hm : lookup name st.rooms with
    | none =>
      simp only [step, handleJoinRoom, hm] at hms
      exact h nm ms hms
    | some members =>
      simp only [step, handleJoinRoom, hm] at hms
      rcases lookup_setAssoc_cases hms with ⟨_, hmsv⟩ | hold
      · subst hmsv
        exact not_mem_setAdd (h name members hm) (fun hc => hs hc.symm)
      · exact h nm ms hold
  | sendMessage s room message username now =>
    intro nm ms hms
    by_cases hc : room = "" ∨ message = "" ∨ username = ""
    · simp only [step, handleSendMessage, if_pos hc] at hms
      exact h nm ms hms
    · simp only [step, handleSendMessage, if_neg hc] at hms
      exact h nm ms hms
  | disconnect s =>
    intro nm ms hms
    simp only [step, handleDisconnect] at hms
    rw [lookup_map_snd (fun _ v => if s ∈ v then setDelete s v else v)
      st.rooms nm] at hms
    cases hl : lookup nm st.rooms with
    | none =>
      rw [hl] at hms
      cases hms
    | some ms0 =>
      rw [hl] at hms
      have hval : (if s ∈ ms0 then setDelete s ms0 else ms0) = ms :=
        Option.some_injective _ hms
      have hnot : sid ∉ ms0 := h nm ms0 hl
      by_cases hin : s ∈ ms0
      · rw [if_pos hin] at hval
        rw [← hval]
        exact fun hc => hnot (mem_of_mem_setDelete hc)
      · rw [if_neg hin] at hval
        rw [← hval]
        exact hnot

theorem memberNowhere_run (sid : String) (ops : List Op) (st : ServerState)
    (hops : ∀ op ∈ ops, joinsAs sid op = false) (h : memberNowhere sid st) :
    memberNowhere sid (run ops st) := by
  induction ops generalizing st with
  | nil => exact h
  | cons op rest ih =>
    exact ih (step op st).1 (fun o ho => hops o (List.mem_cons_of_mem _ ho))
      (memberNowhere_step sid op st (hops op (List.mem_cons_self _ _)) h)

/-- C9: processing a session's disconnect removes its identifier from every
room's membership, so afterwards no room contains it, and it stays out
through any further operations in which that identifier does not itself
create or join a room. -/
theorem disconnect_removes_everywhere (st : ServerState) (sid : String)
    (ops : List Op) (hops : ∀ op ∈ ops, joinsAs sid op = false) :
    memberNowhere sid (run ops (handleDisconnect sid st).1) :=
  memberNowhere_run sid ops (handleDisconnect sid st).1 hops
    (memberNowhere_after_disconnect sid st)

theorem disconnect_removes_everywhere_witness :
    "a" ∉ setDelete "a" ["a", "b"] :=
  disconnect_removes_everywhere twoInRoom "a"
    [Op.sendMessage "b" "r" "hi" "bob" "t0"] (by decide)
    "r" (setDelete "a" ["a", "b"]) (by decide)

theorem disconnect_leftEvents_nil (sid : String)
    (l : List (String × List String)) :
    l.foldr
      (fun p acc =>
        if sid ∈ p.2 then
          (if setDelete sid p.2 = [] then
            (setDelete sid p.2).map (fun s => (s, ServerEvent.userLeft sid))
          else []) ++ acc
        else acc) ([] : List Delivery) = [] := by
  induction l with
  | nil => rfl
  | cons p rest ih =>
    rw [List.foldr_cons, ih]
    by_cases h1 : sid ∈ p.2
    · by_cases h2 : setDelete sid p.2 = []
      · simp [h1, h2]
      · simp [h1, h2]
    · simp [h1]

/-- C4 (counterexample): with sessions `a` and `b` both members of room `r`,
the disconnect of `a` leaves `b` in the room, yet `b` receives no
`userLeft("a")` — the notification is emitted only inside the branch where
the room's membership has become empty, contradicting the claim that it is
emitted regardless of the resulting membership size and reaches every
remaining member. -/
theorem disconnect_userLeft_counterexample :
    ("b", ServerEvent.userLeft "a") ∉ (handleDisconnect "a" twoInRoom).2 ∧
    "b" ∈ setDelete "a" ["a", "b"] := by
  constructor
  · decide
  · decide

/-- C4 (amended): on disconnect, `userLeft` is emitted only to a room whose
remaining membership is empty, so it is delivered to no session at all;
the room-name list is unchanged and the refreshed list is broadcast to every
remaining connected session. -/
theorem disconnect_delivery_spec (st : ServerState) (sid : String) :
    (∀ p ∈ (handleDisconnect sid st).2, ∀ x, p.2 ≠ ServerEvent.userLeft x) ∧
    roomNames (handleDisconnect sid st).1.rooms = roomNames st.rooms ∧
    (∀ s ∈ setDelete sid st.connected,
      (s, ServerEvent.roomList (roomNames st.rooms))
        ∈ (handleDisconnect sid st).2) := by
  have hnames : roomNames (st.rooms.map
      (fun p => (p.1, if sid ∈ p.2 then setDelete sid p.2 else p.2)))
      = roomNames st.rooms :=
    roomNames_map_snd (fun p => if sid ∈ p.2 then setDelete sid p.2 else p.2)
      st.rooms
  have hout : (handleDisconnect sid st).2
      = (setDelete sid st.connected).map
          (fun s => (s, ServerEvent.roomList (roomNames st.rooms))) := by
    simp only [handleDisconnect]
    rw [disconnect_leftEvents_nil, hnames, List.nil_append]
  refine ⟨?_, ?_, ?_⟩
  · intro p hp x
    rw [hout] at hp
    obtain ⟨s, _, rfl⟩ := List.mem_map.mp hp
    intro hc
    cases hc
  · exact hnames
  · intro s hs
    rw [hout]
    exact List.mem_map_of_mem _ hs

theorem disconnect_delivery_spec_witness :
    roomNames (handleDisconnect "a" twoInRoom).1.rooms
      = roomNames twoInRoom.rooms ∧
    ("b", ServerEvent.roomList (roomNames twoInRoom.rooms))
      ∈ (handleDisconnect "a" twoInRoom).2 :=
  ⟨(disconnect_delivery_spec twoInRoom "a").2.1,
   (disconnect_delivery_spec twoInRoom "a").2.2 "b" (by decide)⟩

/-- C5 (counterexample): session `b` joins room `r`; because the `userJoined`
notification is emitted via `io.to(roomName)` after `socket.join`, the joiner
itself also receives `userJoined` with its own identifier, contradicting the
claim that only the other sessions receive it. -/
theorem joinRoom_userJoined_counterexample :
    ("b", ServerEvent.userJoined "b") ∈ (handleJoinRoom "b" "r" oneInRoom).2 := by
  decide

theorem filter_userJoined_map (sid : String) (l : List String) :
    (l.map (fun s => ((s, ServerEvent.userJoined sid) : Delivery))).filter
        (fun p => p.2.isUserJoined)
      = l.map (fun s => (s, ServerEvent.userJoined sid)) := by
  induction l with
  | nil => rfl
  | cons y rest ih =>
    simp only [List.map_cons, List.filter_cons]
    rw [ih]
    rfl

/-- C5 (amended): on a successful `joinRoom`, exactly the sessions in the
room after the join — the previous members plus the joining session itself —
receive the `userJoined` notification carrying the joiner's identifier; in
particular the joiner receives it too. -/
theorem joinRoom_userJoined_spec (st : ServerState) (sid name : String)
    (members : List String) (hmem : lookup name st.rooms = some members) :
    ((handleJoinRoom sid name st).2.filter (fun p => p.2.isUserJoined))
      = (setAdd sid members).map (fun s => (s, ServerEvent.userJoined sid)) ∧
    (sid, ServerEvent.userJoined sid) ∈ (handleJoinRoom sid name st).2 := by
  constructor
  · simp only [handleJoinRoom, hmem, List.filter_cons]
    rw [show ((sid, ServerEvent.roomJoined name) : Delivery).2.isUserJoined
          = false from rfl,
        show ((sid, ServerEvent.previousMessages
          ((lookup name st.roomMessages).getD [])) : Delivery).2.isUserJoined
          = false from rfl]
    simp only [Bool.false_eq_true, if_false]
    exact filter_userJoined_map sid (setAdd sid members)
  · simp only [handleJoinRoom, hmem]
    exact List.mem_cons_of_mem _ (List.mem_cons_of_mem _
      (List.mem_map_of_mem _ (mem_setAdd_self sid members)))

theorem joinRoom_userJoined_spec_witness :
    ((handleJoinRoom "b" "r" oneInRoom).2.filter (fun p => p.2.isUserJoined))
      = (setAdd "b" ["a"]).map (fun s => (s, ServerEvent.userJoined "b")) ∧
    ("b", ServerEvent.userJoined "b") ∈ (handleJoinRoom "b" "r" oneInRoom).2 :=
  joinRoom_userJoined_spec oneInRoom "b" "r" ["a"] (by decide)
